import Mathlib

/-!
# Verification of the Kostal battery manager scheduling core

Shallow embedding of `battery_manager` (tibber_optimizer.py, app.py,
consumption_learner.py, kostal_api.py) and proofs about the claims of the
specification.  Python floats are modelled as exact rationals (`ℚ`),
timezone-aware datetimes as integer minutes (`Int`), and fallible parsing as
`Option`.
-/

namespace BatteryManager

/-! ## Tibber optimizer — `should_charge_now`
    (src/battery_manager/core/tibber_optimizer.py, lines 116-147) -/

/-- Tag for the reason string returned by `should_charge_now`.  The Python code
returns formatted log strings; each constructor stands for one of the five
literal return sites, in source order. -/
inductive ChargeReason
  | safety
  | full
  | pvSufficient
  | planned
  | waiting
deriving DecidableEq

/-- Transcription of `TibberOptimizer.should_charge_now`.  `now` is the
timezone-aware wall clock, `planned_start` the optional planned charging
start; `current_soc`, `min_soc` (`auto_safety_soc`), `max_soc`
(`auto_charge_below_soc`) and `pv_remaining` are the float arguments.
Note the PV gate compares against the literal constant `5`, exactly as in the
source (`if pv_remaining > 5:`). -/
def should_charge_now (now : Int) (planned_start : Option Int)
    (current_soc min_soc max_soc pv_remaining : ℚ) : Bool × ChargeReason :=
  if current_soc < min_soc then (true, .safety)
  else if current_soc ≥ max_soc then (false, .full)
  else if pv_remaining > 5 then (false, .pvSufficient)
  else
    match planned_start with
    | some t => if now ≥ t then (true, .planned) else (false, .waiting)
    | none => (false, .waiting)

/-- **C1.**  `should_charge_now` evaluates its rules short-circuiting in the
order safety > full > pv > planned > waiting: a SoC below `min_soc` yields
`(true, safety)` regardless of every other input (in particular for
soc=15, autoSafetySoc=20, autoChargeBelowSoc=95, pvRemainingToday=20, plan
absent); otherwise SoC ≥ `max_soc` yields `(false, full)`; otherwise the PV
suppression rule is tested, yielding `(false, pv_sufficient)` when it fires;
otherwise the result is `(true, planned)` iff a planned start exists and
`now` has reached it, and `(false, waiting)` in all remaining cases. -/
theorem should_charge_now_rule_order :
    (∀ (now : Int) (ps : Option Int) (soc mn mx pv : ℚ),
      soc < mn → should_charge_now now ps soc mn mx pv = (true, .safety)) ∧
    (∀ now : Int, should_charge_now now none 15 20 95 20 = (true, .safety)) ∧
    (∀ (now : Int) (ps : Option Int) (soc mn mx pv : ℚ),
      ¬ soc < mn → soc ≥ mx →
        should_charge_now now ps soc mn mx pv = (false, .full)) ∧
    (∀ (now : Int) (ps : Option Int) (soc mn mx pv : ℚ),
      ¬ soc < mn → ¬ soc ≥ mx → pv > 5 →
        should_charge_now now ps soc mn mx pv = (false, .pvSufficient)) ∧
    (∀ (now : Int) (ps : Option Int) (soc mn mx pv : ℚ),
      ¬ soc < mn → ¬ soc ≥ mx → ¬ pv > 5 →
        ((should_charge_now now ps soc mn mx pv = (true, .planned) ↔
            ∃ t, ps = some t ∧ t ≤ now) ∧
         ((¬ ∃ t, ps = some t ∧ t ≤ now) →
            should_charge_now now ps soc mn mx pv = (false, .waiting)))) := by
  refine ⟨?_, ?_, ?_, ?_, ?_⟩
  · intro now ps soc mn mx pv h
    simp [should_charge_now, h]
  · intro now
    norm_num [should_charge_now]
  · intro now ps soc mn mx pv h1 h2
    simp [should_charge_now, h1, h2]
  · intro now ps soc mn mx pv h1 h2 h3
    simp [should_charge_now, h1, h2, h3]
  · intro now ps soc mn mx pv h1 h2 h3
    constructor
    · cases ps with
      | none => simp [should_charge_now, h1, h2, h3]
      | some t =>
        by_cases ht : t ≤ now
        · simp [should_charge_now, h1, h2, h3, ge_iff_le, ht]
        · simp [should_charge_now, h1, h2, h3, ge_iff_le, ht]
    · intro hno
      cases ps with
      | none => simp [should_charge_now, h1, h2, h3]
      | some t =>
        have ht : ¬ t ≤ now := fun h => hno ⟨t, rfl, h⟩
        simp [should_charge_now, h1, h2, h3, ge_iff_le, ht]

/-- Witness for C1: each hypothesis of `should_charge_now_rule_order`
discharged at a concrete input. -/
theorem should_charge_now_rule_order_witness :
    should_charge_now 0 (some 7) 15 20 95 20 = (true, .safety) ∧
    should_charge_now 0 none 97 20 95 0 = (false, .full) ∧
    should_charge_now 0 none 50 20 95 12 = (false, .pvSufficient) ∧
    should_charge_now 0 (some (-3)) 50 20 95 1 = (true, .planned) ∧
    should_charge_now 0 none 50 20 95 1 = (false, .waiting) := by
  refine ⟨?_, ?_, ?_, ?_, ?_⟩
  · exact should_charge_now_rule_order.1 0 (some 7) 15 20 95 20 (by norm_num)
  · exact should_charge_now_rule_order.2.2.1 0 none 97 20 95 0
      (by norm_num) (by norm_num)
  · exact should_charge_now_rule_order.2.2.2.1 0 none 50 20 95 12
      (by norm_num) (by norm_num) (by norm_num)
  · exact ((should_charge_now_rule_order.2.2.2.2 0 (some (-3)) 50 20 95 1
      (by norm_num) (by norm_num) (by norm_num)).1).mpr ⟨-3, rfl, by norm_num⟩
  · exact (should_charge_now_rule_order.2.2.2.2 0 none 50 20 95 1
      (by norm_num) (by norm_num) (by norm_num)).2 (by rintro ⟨t, ht, -⟩; cases ht)


/-! ## Tibber optimizer — `find_optimal_charge_end_time`
    (src/battery_manager/core/tibber_optimizer.py, lines 22-80) -/


/-- First-match characterization of `List.findSome?` over a contiguous index range. -/
theorem range'_findSome?_first {β : Type} (f : Nat → Option β) (b : β) :
    ∀ (k s : Nat), (List.range' s k).findSome? f = some b ↔
      ∃ i, s ≤ i ∧ i < s + k ∧ f i = some b ∧ ∀ j, s ≤ j → j < i → f j = none := by
  intro k
  induction k with
  | zero =>
    intro s
    constructor
    · intro h; simp [List.range'] at h
    · rintro ⟨i, h1, h2, -, -⟩; omega
  | succ k ih =>
    intro s
    have hsucc : List.range' s (k + 1) = s :: List.range' (s + 1) k := by
      simp [List.range'_succ]
    rw [hsucc, List.findSome?_cons]
    cases hfs : f s with
    | some b0 =>
      constructor
      · intro h
        have hb : b0 = b := by simpa using h
        subst hb
        exact ⟨s, le_refl s, by omega, hfs, fun j hj1 hj2 => by omega⟩
      · rintro ⟨i, hsi, hik, hfi, hmin⟩
        rcases Nat.eq_or_lt_of_le hsi with rfl | hlt
        · rw [hfi] at hfs
          simpa using hfs.symm
        · have hnone : f s = none := hmin s (le_refl s) hlt
          rw [hnone] at hfs
          cases hfs
    | none =>
      show (List.range' (s+1) k).findSome? f = some b ↔ _
      rw [ih (s + 1)]
      constructor
      · rintro ⟨i, h1, h2, h3, h4⟩
        refine ⟨i, by omega, by omega, h3, fun j hj1 hj2 => ?_⟩
        rcases Nat.eq_or_lt_of_le hj1 with rfl | hj
        · exact hfs
        · exact h4 j (by omega) hj2
      · rintro ⟨i, h1, h2, h3, h4⟩
        have hne : s ≠ i := by
          rintro rfl
          rw [h3] at hfs
          cases hfs
        exact ⟨i, by omega, by omega, h3, fun j hj1 hj2 => h4 j (by omega) hj2⟩

/-- One hourly price sample as consumed by the optimizer.  `none` models a
field that is missing or fails to parse (`KeyError`/`ValueError`/`TypeError`
in the Python `try` block). -/
structure PriceEntry where
  startsAt : Option Int
  total : Option ℚ
deriving DecidableEq

/-- Default for out-of-range list access (never reached on the indices the
loop visits). -/
def emptyPriceEntry : PriceEntry := ⟨none, none⟩

/-- Body of the loop in `find_optimal_charge_end_time` on the already-fetched
fields: parse `startsAt` (failure skips), skip past samples
(`starts_at <= now` continues), read the five `total` fields (failure skips),
and test the two price conditions, returning `starts_at` when both hold. -/
def tryIndexCore (th1 th3 : ℚ) (now : Int) (sAt : Option Int)
    (t0 tm1 tm2 tp1 tp2 : Option ℚ) : Option Int :=
  match sAt with
  | none => none
  | some starts_at =>
    if starts_at ≤ now then none
    else
      match t0, tm1, tm2, tp1, tp2 with
      | some current_price, some price_1h_ago, some price_2h_ago,
        some price_1h_future, some price_2h_future =>
        if current_price > price_1h_ago * (1 + th1) ∧
            current_price + price_1h_ago + price_2h_ago <
              (current_price + price_1h_future + price_2h_future) * (1 + th3) then
          some starts_at
        else none
      | _, _, _, _, _ => none

/-- The loop body at index `i` of the price list. -/
def tryIndex (th1 th3 : ℚ) (now : Int) (prices : List PriceEntry) (i : Nat) :
    Option Int :=
  tryIndexCore th1 th3 now (prices.getD i emptyPriceEntry).startsAt
    (prices.getD i emptyPriceEntry).total
    (prices.getD (i-1) emptyPriceEntry).total
    (prices.getD (i-2) emptyPriceEntry).total
    (prices.getD (i+1) emptyPriceEntry).total
    (prices.getD (i+2) emptyPriceEntry).total

/-- Transcription of `TibberOptimizer.find_optimal_charge_end_time`
(tibber_optimizer.py lines 22-80): fewer than 6 samples yields `None`,
otherwise the loop `for i in range(3, len(prices) - 2)` returns the first
qualifying `startsAt`. -/
def find_optimal_charge_end_time (th1 th3 : ℚ) (now : Int)
    (prices : List PriceEntry) : Option Int :=
  if prices.length < 6 then none
  else (List.range' 3 (prices.length - 5)).findSome? (tryIndex th1 th3 now prices)

/-- Condition A of the spec: sharp single-hour rise. -/
def conditionA (th1 pm1 p0 : ℚ) : Prop := p0 > pm1 * (1 + th1)

/-- Condition B of the spec: the upcoming three-hour window is more expensive
than the prior three-hour window by the threshold. -/
def conditionB (th3 pm2 pm1 p0 pp1 pp2 : ℚ) : Prop :=
  pm2 + pm1 + p0 < (p0 + pp1 + pp2) * (1 + th3)

/-- Spec-side qualification on the fetched fields: `startsAt` parses and is
strictly in the future, all five totals parse, and Conditions A and B hold. -/
def qualifiesCore (th1 th3 : ℚ) (now : Int) (sAt : Option Int)
    (t0 tm1 tm2 tp1 tp2 : Option ℚ) : Prop :=
  ∃ u p0 pm1 pm2 pp1 pp2,
    sAt = some u ∧ now < u ∧
    t0 = some p0 ∧ tm1 = some pm1 ∧ tm2 = some pm2 ∧
    tp1 = some pp1 ∧ tp2 = some pp2 ∧
    conditionA th1 pm1 p0 ∧ conditionB th3 pm2 pm1 p0 pp1 pp2

/-- Spec-side qualification of index `i` of the price list. -/
def qualifiesAt (th1 th3 : ℚ) (now : Int) (prices : List PriceEntry)
    (i : Nat) : Prop :=
  qualifiesCore th1 th3 now (prices.getD i emptyPriceEntry).startsAt
    (prices.getD i emptyPriceEntry).total
    (prices.getD (i-1) emptyPriceEntry).total
    (prices.getD (i-2) emptyPriceEntry).total
    (prices.getD (i+1) emptyPriceEntry).total
    (prices.getD (i+2) emptyPriceEntry).total

theorem tryIndexCore_eq_some_iff (th1 th3 : ℚ) (now : Int) (sAt : Option Int)
    (t0 tm1 tm2 tp1 tp2 : Option ℚ) (t : Int) :
    tryIndexCore th1 th3 now sAt t0 tm1 tm2 tp1 tp2 = some t ↔
      sAt = some t ∧ qualifiesCore th1 th3 now sAt t0 tm1 tm2 tp1 tp2 := by
  unfold qualifiesCore
  cases sAt with
  | none => simp [tryIndexCore]
  | some u =>
    by_cases hle : u ≤ now
    · simp only [tryIndexCore, if_pos hle]
      constructor
      · rintro ⟨⟩
      · rintro ⟨hut, v, p0, pm1, pm2, pp1, pp2, hv, hnow, -⟩
        injection hv with hv
        omega
    · cases t0 with
      | none => simp [tryIndexCore, hle]
      | some p0 =>
        cases tm1 with
        | none => simp [tryIndexCore, hle]
        | some pm1 =>
          cases tm2 with
          | none => simp [tryIndexCore, hle]
          | some pm2 =>
            cases tp1 with
            | none => simp [tryIndexCore, hle]
            | some pp1 =>
              cases tp2 with
              | none => simp [tryIndexCore, hle]
              | some pp2 =>
                simp only [tryIndexCore, if_neg hle]
                by_cases hc : p0 > pm1 * (1 + th1) ∧
                    p0 + pm1 + pm2 < (p0 + pp1 + pp2) * (1 + th3)
                · rw [if_pos hc]
                  constructor
                  · intro h
                    injection h with h
                    subst h
                    refine ⟨rfl, u, p0, pm1, pm2, pp1, pp2, rfl, by omega, rfl,
                      rfl, rfl, rfl, rfl, hc.1, ?_⟩
                    have hb := hc.2
                    unfold conditionB
                    linarith
                  · rintro ⟨hut, -⟩
                    exact hut
                · rw [if_neg hc]
                  constructor
                  · rintro ⟨⟩
                  · rintro ⟨hut, v, p0x, pm1x, pm2x, pp1x, pp2x, hv, hnow,
                      h0, h1, h2, h3, h4, ha, hb⟩
                    injection h0 with h0
                    injection h1 with h1
                    injection h2 with h2
                    injection h3 with h3
                    injection h4 with h4
                    subst h0; subst h1; subst h2; subst h3; subst h4
                    refine absurd ⟨ha, ?_⟩ hc
                    unfold conditionB at hb
                    linarith

theorem tryIndex_eq_some_iff (th1 th3 : ℚ) (now : Int) (ps : List PriceEntry)
    (i : Nat) (t : Int) :
    tryIndex th1 th3 now ps i = some t ↔
      (ps.getD i emptyPriceEntry).startsAt = some t ∧
        qualifiesAt th1 th3 now ps i :=
  tryIndexCore_eq_some_iff th1 th3 now _ _ _ _ _ _ t

theorem tryIndex_eq_none_iff (th1 th3 : ℚ) (now : Int) (ps : List PriceEntry)
    (i : Nat) :
    tryIndex th1 th3 now ps i = none ↔ ¬ qualifiesAt th1 th3 now ps i := by
  constructor
  · intro h hq
    unfold qualifiesAt qualifiesCore at hq
    rcases hq with ⟨t, p0, pm1, pm2, pp1, pp2, hs, hfut, rest⟩
    have hsome : tryIndex th1 th3 now ps i = some t :=
      (tryIndex_eq_some_iff th1 th3 now ps i t).mpr
        ⟨hs, t, p0, pm1, pm2, pp1, pp2, hs, hfut, rest⟩
    rw [hsome] at h
    cases h
  · intro hq
    cases h : tryIndex th1 th3 now ps i with
    | none => rfl
    | some t =>
      exact absurd ((tryIndex_eq_some_iff th1 th3 now ps i t).mp h).2 hq

/-- Example price curve `[1,1,1,1,10,10,10]`, all samples in the future of
`now = 0` (sample `i` starts at `i+1`). -/
def c2ExamplePrices : List PriceEntry :=
  [⟨some 1, some 1⟩, ⟨some 2, some 1⟩, ⟨some 3, some 1⟩, ⟨some 4, some 1⟩,
   ⟨some 5, some 10⟩, ⟨some 6, some 10⟩, ⟨some 7, some 10⟩]

/-- The loop body rejects index 3 of the example curve (Condition A fails:
the price does not rise from index 2 to index 3). -/
theorem tryIndex_c2Example_3 : tryIndex 0 0 0 c2ExamplePrices 3 = none := by
  show tryIndexCore 0 0 0 (some 4) (some 1) (some 1) (some 1) (some 10)
      (some 10) = none
  simp only [tryIndexCore]
  norm_num

/-- The loop body accepts index 4 of the example curve. -/
theorem tryIndex_c2Example_4 : tryIndex 0 0 0 c2ExamplePrices 4 = some 5 := by
  show tryIndexCore 0 0 0 (some 5) (some 10) (some 1) (some 1) (some 10)
      (some 10) = some 5
  simp only [tryIndexCore]
  norm_num

/-- Evaluation of the optimizer on the example curve: it returns the
timestamp of index 4. -/
theorem c2Example_find :
    find_optimal_charge_end_time 0 0 0 c2ExamplePrices = some 5 := by
  unfold find_optimal_charge_end_time
  rw [if_neg (by decide)]
  show (List.range' 3 2).findSome? (tryIndex 0 0 0 c2ExamplePrices) = some 5
  rw [show List.range' 3 2 = [3, 4] from rfl]
  rw [List.findSome?_cons]
  rw [tryIndex_c2Example_3]
  show (List.findSome? (tryIndex 0 0 0 c2ExamplePrices) [4]) = some 5
  rw [List.findSome?_cons]
  rw [tryIndex_c2Example_4]

/-- **C2 (counterexample).**  On the 7-sample all-future curve
`[1,1,1,1,10,10,10]` with both thresholds 0, the code returns the timestamp
of index 4 — but index 4 lies outside the range `[3, n-3) = {3}` asserted by
the claim, and the single index 3 of that range does not qualify
(`tryIndex` rejects it), so the claim that only `[3, n-3)` is examined is
false. -/
theorem find_optimal_range_counterexample :
    find_optimal_charge_end_time 0 0 0 c2ExamplePrices = some 5 ∧
    tryIndex 0 0 0 c2ExamplePrices 3 = none :=
  ⟨c2Example_find, tryIndex_c2Example_3⟩

/-- **C2 (amended).**  `find_optimal_charge_end_time` returns none for fewer
than 6 samples; otherwise it examines exactly the indices `i ∈ [3, n-2)`
(those with two successors and three predecessors), returning
`prices[i].startsAt` for the lowest future-starting, fully-parsing index
satisfying Conditions A and B, and none when no such index exists; on the
example curve it returns the timestamp of index 4. -/
theorem find_optimal_charge_end_characterization :
    (∀ (th1 th3 : ℚ) (now : Int) (ps : List PriceEntry),
      ps.length < 6 → find_optimal_charge_end_time th1 th3 now ps = none) ∧
    (∀ (th1 th3 : ℚ) (now : Int) (ps : List PriceEntry) (t : Int),
      6 ≤ ps.length →
      (find_optimal_charge_end_time th1 th3 now ps = some t ↔
        ∃ i, 3 ≤ i ∧ i + 2 < ps.length ∧
          (ps.getD i emptyPriceEntry).startsAt = some t ∧
          qualifiesAt th1 th3 now ps i ∧
          ∀ j, 3 ≤ j → j < i → ¬ qualifiesAt th1 th3 now ps j)) ∧
    find_optimal_charge_end_time 0 0 0 c2ExamplePrices = some 5 := by
  refine ⟨?_, ?_, c2Example_find⟩
  · intro th1 th3 now ps h
    unfold find_optimal_charge_end_time
    rw [if_pos h]
  · intro th1 th3 now ps t hlen
    unfold find_optimal_charge_end_time
    rw [if_neg (by omega)]
    rw [range'_findSome?_first]
    constructor
    · rintro ⟨i, h3i, hik, hfi, hmin⟩
      have hq := (tryIndex_eq_some_iff th1 th3 now ps i t).mp hfi
      refine ⟨i, h3i, by omega, hq.1, hq.2, fun j hj1 hj2 => ?_⟩
      exact (tryIndex_eq_none_iff th1 th3 now ps j).mp (hmin j hj1 hj2)
    · rintro ⟨i, h3i, hik, hst, hq, hmin⟩
      refine ⟨i, h3i, by omega, ?_, fun j hj1 hj2 => ?_⟩
      · exact (tryIndex_eq_some_iff th1 th3 now ps i t).mpr ⟨hst, hq⟩
      · exact (tryIndex_eq_none_iff th1 th3 now ps j).mpr (hmin j hj1 hj2)

/-- Witness for C2: the characterization applied at concrete inputs, with
each hypothesis discharged. -/
theorem find_optimal_charge_end_characterization_witness :
    find_optimal_charge_end_time 0 0 0 [] = none ∧
    find_optimal_charge_end_time 0 0 0 c2ExamplePrices = some 5 := by
  constructor
  · exact find_optimal_charge_end_characterization.1 0 0 0 [] (by decide)
  · refine (find_optimal_charge_end_characterization.2.1 0 0 0 c2ExamplePrices 5
      (by decide)).mpr ⟨4, by omega, by decide, rfl, ?_, ?_⟩
    · exact ⟨5, 10, 1, 1, 10, 10, rfl, by norm_num, rfl, rfl, rfl, rfl, rfl,
        by norm_num [conditionA], by norm_num [conditionB]⟩
    · intro j hj1 hj2
      have hj : j = 3 := by omega
      subst hj
      exact (tryIndex_eq_none_iff 0 0 0 c2ExamplePrices 3).mp
        tryIndex_c2Example_3


/-! ## Status explainer (app.py `get_charging_status_explanation`, lines 899-1013) -/

/-- The `will_charge` decision chain of `get_charging_status_explanation`:
unlike `should_charge_now`, the PV branch compares against the *configured*
`auto_pv_threshold` (`pv_remaining > pv_threshold`). -/
def status_will_charge (now : Int) (planned_start : Option Int)
    (current_soc min_soc max_soc pv_threshold pv_remaining : ℚ) : Bool :=
  if current_soc < min_soc then true
  else if current_soc ≥ max_soc then false
  else if pv_remaining > pv_threshold then false
  else
    match planned_start with
    | some t => if now ≥ t then true else false
    | none => false

/-- **C3 (evaluation at the failing input).**  With `auto_pv_threshold = 10`
configured, `pv_remaining = 7`, SoC 50 in `[20, 95)` and a planned start in
the past, `should_charge_now` suppresses charging with the PV reason (its
gate is the hardcoded constant 5), while the status explainer of the same
repository — which honors the configured threshold — reports that charging
will proceed.  The decision is therefore *not* governed by the configured
`autoPvThreshold`, contradicting the claim and the explainer. -/
theorem pv_threshold_hardcoded_bug :
    should_charge_now 0 (some (-10)) 50 20 95 7 = (false, .pvSufficient) ∧
    status_will_charge 0 (some (-10)) 50 20 95 10 7 = true := by
  constructor
  · norm_num [should_charge_now]
  · norm_num [status_will_charge]

/-! ## Control-loop SoC read (app.py `controller_loop`, lines 1066-1096) -/

/-- Result of `ha_client.get_state(battery_soc_sensor)` as consumed by the
control loop.  `missing` is a `None` (or empty) return, `unparsable` a state
string such as `"unknown"` or `"unavailable"` that `float()` cannot parse,
and `value q` a numeric state. -/
inductive SocReading
  | missing
  | unparsable
  | value (q : ℚ)

/-- The SoC acquisition `float(ha_client.get_state(...) or 0)` of the
control loop: a `None` read is coerced by `or 0` to `0.0`, while an
unparsable string raises `ValueError`, which the surrounding `except`
swallows, skipping the tick's decision (`none`). -/
def read_soc_tick : SocReading → Option ℚ
  | .missing => some 0
  | .unparsable => none
  | .value q => some q

/-- One tick's charging decision as a function of the SoC read: `none` means
the decision is skipped for this tick. -/
def tick_decision (now : Int) (planned_start : Option Int)
    (min_soc max_soc pv_remaining : ℚ) (r : SocReading) :
    Option (Bool × ChargeReason) :=
  (read_soc_tick r).map fun soc =>
    should_charge_now now planned_start soc min_soc max_soc pv_remaining

/-- **C9 (evaluation at the failing input).**  A missing SoC read (telemetry
returned `None`) is substituted by zero, so with `auto_safety_soc = 20` the
tick decides `(true, safety)` and starts grid charging — the claim says such
a tick must be skipped.  Only the `"unknown"`/`"unavailable"` strings are
skipped, via the `ValueError` caught by the loop's `except`. -/
theorem missing_soc_triggers_safety_bug :
    tick_decision 0 none 20 95 0 SocReading.missing = some (true, .safety) ∧
    tick_decision 0 none 20 95 0 SocReading.unparsable = none := by
  constructor
  · show some (should_charge_now 0 none 0 20 95 0) = some (true, .safety)
    norm_num [should_charge_now]
  · rfl

/-! ## HTTP charging setpoints (app.py `api_control` lines 430-445 and
    `api_adjust_power` lines 566-608) -/

/-- The `app_state['inverter']['mode']` strings. -/
inductive InverterMode
  | automatic
  | manualCharging
  | autoCharging
deriving DecidableEq

/-- Setpoint computed by the `start_charging` action of `/api/control`:
`charge_power = -abs(int(requested_power))`. -/
def control_charge_power (requested : Int) : Int := -(requested.natAbs : Int)

/-- `/api/adjust_power`: only honored while
`mode in ['manual_charging', 'auto_charging']`, writing
`charge_power = -abs(int(power))`; otherwise no write occurs. -/
def adjust_power_setpoint (mode : InverterMode) (power : Int) : Option Int :=
  if mode = .manualCharging ∨ mode = .autoCharging then
    some (-(power.natAbs : Int))
  else none

/-- **C10.**  Every charging setpoint reachable from the HTTP surface equals
`-|int(p)|` for the submitted power `p` and is therefore never positive: no
operator request can command a battery discharge. -/
theorem http_setpoints_never_discharge :
    (∀ p : Int, control_charge_power p = -|p| ∧ control_charge_power p ≤ 0) ∧
    (∀ (m : InverterMode) (p sp : Int),
      adjust_power_setpoint m p = some sp → sp = -|p| ∧ sp ≤ 0) := by
  constructor
  · intro p
    refine ⟨by rw [Int.abs_eq_natAbs]; rfl, ?_⟩
    unfold control_charge_power
    omega
  · intro m p sp h
    unfold adjust_power_setpoint at h
    by_cases hm : m = .manualCharging ∨ m = .autoCharging
    · rw [if_pos hm] at h
      injection h with h
      subst h
      refine ⟨by rw [Int.abs_eq_natAbs], by omega⟩
    · rw [if_neg hm] at h
      cases h

/-- Witness for C10: the theorem applied to a concrete `/api/adjust_power`
request of 2000 W while manually charging. -/
theorem http_setpoints_never_discharge_witness :
    adjust_power_setpoint InverterMode.manualCharging 2000 = some (-2000) ∧
    ((-2000 : Int) = -|(2000 : Int)| ∧ (-2000 : Int) ≤ 0) :=
  ⟨by decide,
    http_setpoints_never_discharge.2 InverterMode.manualCharging 2000 (-2000)
      (by decide)⟩


/-! ## Consumption learner (src/battery_manager/core/consumption_learner.py)

Timestamps are modelled as minutes (`Int`); Python's `datetime.isoformat()`
primary key corresponds to the timestamp value itself (lexicographic order on
isoformat strings is chronological order), `timestamp.hour` to
`hourOfTime`, and `date.replace(hour=h, minute=0, second=0, microsecond=0)`
to `dateFloor date + h * 60`. -/

/-- `timestamp.hour`: hour-of-day of a timestamp in minutes. -/
def hourOfTime (t : Int) : Int := (t % 1440) / 60

/-- Midnight of the calendar day containing `t`. -/
def dateFloor (t : Int) : Int := t - t % 1440

/-- One row of the `hourly_consumption` table:
`(timestamp PRIMARY KEY, hour, consumption_kwh, is_manual)`. -/
structure Sample where
  timestamp : Int
  hour : Int
  kwh : ℚ
  isManual : Bool
deriving DecidableEq

/-- The table contents (`timestamp` is the primary key, so reachable stores
have pairwise distinct timestamps). -/
abbrev Store := List Sample

/-- `INSERT OR REPLACE` on the `timestamp` primary key: replace the row with
the same key, else append. -/
def insertOrReplace : Store → Sample → Store
  | [], s => [s]
  | x :: xs, s =>
    if x.timestamp = s.timestamp then s :: xs else x :: insertOrReplace xs s

/-- `_cleanup_old_data`: `DELETE FROM hourly_consumption WHERE timestamp < cutoff`
with `cutoff = now - timedelta(days=learning_days)`. -/
def cleanup_old_data (cutoff : Int) (st : Store) : Store :=
  st.filter fun s => decide (cutoff ≤ s.timestamp)

/-- Transcription of `record_consumption` (lines 451-489): reject
`kwh < 0` and `kwh > 50`; otherwise `INSERT OR REPLACE` the row keyed at the
*full* timestamp (`timestamp.isoformat()`, not rounded to the hour), with the
`hour` column set to `timestamp.hour`, then purge rows older than the
learning period. -/
def record_consumption (learning_days now : Int) (st : Store) (ts : Int)
    (kwh : ℚ) : Store :=
  if kwh < 0 then st
  else if kwh > 50 then st
  else
    cleanup_old_data (now - learning_days * 1440)
      (insertOrReplace st ⟨ts, hourOfTime ts, kwh, false⟩)

/-- Transcription of `add_manual_profile` (lines 66-108): seed
`learning_days × 24` hourly rows with `is_manual=1`, value
`float(profile[str(hour)])` or the `0.2` default for missing hours;
timestamps are `start_date + day` at `hour:00` with
`start_date = now - learning_days` days.  No validation and no cleanup is
performed. -/
def add_manual_profile (learning_days : Nat) (now : Int) (st : Store)
    (profile : Nat → Option ℚ) : Store :=
  (List.range learning_days).foldl
    (fun acc day =>
      (List.range 24).foldl
        (fun acc2 (hour : Nat) =>
          insertOrReplace acc2
            ⟨dateFloor (now - (learning_days : Int) * 1440 + (day : Int) * 1440)
                + (hour : Int) * 60,
              (hour : Int), (profile hour).getD (2/10), true⟩)
        acc)
    st

/-- One element of the `daily_data` argument of `import_detailed_history`:
`date = none` models a date whose parse raises (the day is skipped by the
`except` handler); `hours` are the already-parsed float values. -/
structure DayEntry where
  date : Option Int
  hours : List ℚ

/-- The per-hour clamping of `import_detailed_history`: negative values are
stored as 0, values above 50 are capped at 50. -/
def clampDetailed (q : ℚ) : ℚ := if q < 0 then 0 else if q > 50 then 50 else q

/-- One day of `import_detailed_history` once its date has parsed: skip
unless exactly 24 hourly values are present; otherwise `INSERT OR REPLACE`
each clamped hour with `is_manual=1`. -/
def importDayAux (st : Store) (date : Int) (hours : List ℚ) : Store :=
  if hours.length = 24 then
    (List.range 24).foldl
      (fun acc (hour : Nat) =>
        insertOrReplace acc
          ⟨dateFloor date + (hour : Int) * 60, (hour : Int),
            clampDetailed (hours.getD hour 0), true⟩)
      st
  else st

/-- One day of `import_detailed_history`: a date whose parse raises is
skipped by the `except` handler. -/
def importDay (st : Store) (entry : DayEntry) : Store :=
  match entry.date with
  | none => st
  | some date => importDayAux st date entry.hours

/-- Transcription of `import_detailed_history` (lines 110-201): import every
day, then `_cleanup_old_data`. -/
def import_detailed_history (learning_days now : Int) (st : Store)
    (data : List DayEntry) : Store :=
  cleanup_old_data (now - learning_days * 1440) (data.foldl importDay st)

/-- `import_from_csv` (lines 203-300) parses the CSV text into day entries
(only rows with a parsable date and exactly 24 numeric values survive the
parser) and delegates every database write to `import_detailed_history`;
the parsing stage is abstracted as the resulting `parsed` list. -/
def import_from_csv (learning_days now : Int) (st : Store)
    (parsed : List DayEntry) : Store :=
  import_detailed_history learning_days now st parsed

/-- Transcription of `get_average_consumption` (lines 520-542):
`SELECT AVG(consumption_kwh) WHERE hour = ?`; the Python guard
`if result and result[0]` treats both `NULL` (no rows) *and* an average of
`0.0` as missing and returns the fallback. -/
def get_average_consumption (default_fallback : ℚ) (st : Store)
    (hour : Int) : ℚ :=
  match st.filter fun s => decide (s.hour = hour) with
  | [] => default_fallback
  | rows =>
    if (rows.map Sample.kwh).sum / (rows.length : ℚ) = 0 then default_fallback
    else (rows.map Sample.kwh).sum / (rows.length : ℚ)

/-! ### Store invariant machinery -/

/-- The spec's range invariant on one stored sample. -/
def sampleOk (s : Sample) : Prop := 0 ≤ s.kwh ∧ s.kwh ≤ 50

/-- The spec's range invariant on the whole store. -/
def storeOk (st : Store) : Prop := ∀ s ∈ st, sampleOk s

instance (s : Sample) : Decidable (sampleOk s) :=
  inferInstanceAs (Decidable (_ ∧ _))

instance (st : Store) : Decidable (storeOk st) :=
  inferInstanceAs (Decidable (∀ s ∈ st, sampleOk s))

/-- A consumption-store write operation, with its call parameters. -/
inductive StoreOp where
  | record (learning_days now ts : Int) (kwh : ℚ)
  | manualProfile (learning_days : Nat) (now : Int) (profile : Nat → Option ℚ)
  | detailedHistory (learning_days now : Int) (data : List DayEntry)
  | csvImport (learning_days now : Int) (parsed : List DayEntry)

/-- Apply one store operation. -/
def applyOp (st : Store) : StoreOp → Store
  | .record ld now ts k => record_consumption ld now st ts k
  | .manualProfile ld now p => add_manual_profile ld now st p
  | .detailedHistory ld now d => import_detailed_history ld now st d
  | .csvImport ld now d => import_from_csv ld now st d

/-- Apply a sequence of store operations. -/
def applyOps (st : Store) (ops : List StoreOp) : Store := ops.foldl applyOp st

/-- Side condition an operation needs for the range invariant: manual
profiles must themselves stay in range (the code does not validate them);
every other operation validates or clamps on its own. -/
def opOk : StoreOp → Prop
  | .manualProfile _ _ p => ∀ h q, p h = some q → 0 ≤ q ∧ q ≤ 50
  | _ => True

theorem storeOk_nil : storeOk [] := by
  intro s hs
  cases hs

theorem storeOk_insertOrReplace {st : Store} {s : Sample} (hst : storeOk st)
    (hs : sampleOk s) : storeOk (insertOrReplace st s) := by
  induction st with
  | nil =>
    show storeOk [s]
    intro x hx
    have hxs := List.mem_singleton.mp hx
    subst hxs
    exact hs
  | cons y ys ih =>
    have hy : sampleOk y := hst y (by simp)
    have hys : storeOk ys := fun x hx => hst x (by simp [hx])
    unfold insertOrReplace
    by_cases h : y.timestamp = s.timestamp
    · rw [if_pos h]
      intro x hx
      rcases List.mem_cons.mp hx with rfl | hx
      · exact hs
      · exact hys x hx
    · rw [if_neg h]
      intro x hx
      rcases List.mem_cons.mp hx with rfl | hx
      · exact hy
      · exact ih hys x hx

theorem storeOk_cleanup {st : Store} (hst : storeOk st) (c : Int) :
    storeOk (cleanup_old_data c st) := by
  intro s hs
  exact hst s (List.mem_of_mem_filter hs)

theorem storeOk_foldl {α : Type} {f : Store → α → Store}
    (hf : ∀ st a, storeOk st → storeOk (f st a)) :
    ∀ (l : List α) (st : Store), storeOk st → storeOk (l.foldl f st) := by
  intro l
  induction l with
  | nil => intro st h; exact h
  | cons a l ih => intro st h; exact ih (f st a) (hf st a h)

theorem clampDetailed_ok (q : ℚ) : 0 ≤ clampDetailed q ∧ clampDetailed q ≤ 50 := by
  unfold clampDetailed
  split_ifs with h1 h2
  · norm_num
  · norm_num
  · constructor <;> linarith

theorem storeOk_record {st : Store} (hst : storeOk st)
    (ld now ts : Int) (k : ℚ) : storeOk (record_consumption ld now st ts k) := by
  unfold record_consumption
  split_ifs with h1 h2
  · exact hst
  · exact hst
  · have h1x := not_lt.mp h1
    have h2x := not_lt.mp h2
    exact storeOk_cleanup
      (storeOk_insertOrReplace hst ⟨h1x, h2x⟩) _

theorem storeOk_manual {st : Store} (hst : storeOk st)
    (ld : Nat) (now : Int) {p : Nat → Option ℚ}
    (hp : ∀ h q, p h = some q → 0 ≤ q ∧ q ≤ 50) :
    storeOk (add_manual_profile ld now st p) := by
  unfold add_manual_profile
  refine storeOk_foldl (fun acc day hacc => ?_) _ _ hst
  refine storeOk_foldl (fun acc2 hour hacc2 => ?_) _ _ hacc
  refine storeOk_insertOrReplace hacc2 ?_
  cases hq : p hour with
  | none =>
    refine ⟨?_, ?_⟩ <;> simp only [hq, Option.getD_none] <;> norm_num
  | some q =>
    have hb := hp hour q hq
    refine ⟨?_, ?_⟩
    · simp only [hq, Option.getD_some]
      exact hb.1
    · simp only [hq, Option.getD_some]
      exact hb.2

theorem storeOk_importDay {st : Store} (hst : storeOk st) (e : DayEntry) :
    storeOk (importDay st e) := by
  obtain ⟨date, hours⟩ := e
  cases date with
  | none => exact hst
  | some d =>
    show storeOk (importDayAux st d hours)
    unfold importDayAux
    by_cases hlen : hours.length = 24
    · rw [if_pos hlen]
      refine storeOk_foldl (fun acc hour hacc => ?_) _ _ hst
      exact storeOk_insertOrReplace hacc (clampDetailed_ok _)
    · rw [if_neg hlen]
      exact hst

theorem storeOk_detailed {st : Store} (hst : storeOk st)
    (ld now : Int) (data : List DayEntry) :
    storeOk (import_detailed_history ld now st data) := by
  unfold import_detailed_history
  exact storeOk_cleanup
    (storeOk_foldl (fun acc e hacc => storeOk_importDay hacc e) data st hst) _

/-- **C7 (counterexample).**  `add_manual_profile` performs no validation:
seeding a profile whose every value is 100 kWh stores samples far outside
`[0, 50]`, so not every write path rejects or clamps. -/
theorem manual_profile_range_counterexample :
    ¬ storeOk (add_manual_profile 1 0 [] fun _ => some 100) := by
  intro h
  have hmem := h ⟨-1440, 0, 100, true⟩
  have : sampleOk ⟨-1440, 0, 100, true⟩ := hmem (by decide)
  rcases this with ⟨-, hle⟩
  norm_num at hle

/-- **C7 (amended).**  After any sequence of store operations, every stored
sample satisfies `0 ≤ kWh ≤ 50`, *provided* every `add_manual_profile` call
supplies a profile whose values already lie in `[0, 50]`
(`record_consumption` rejects, `import_detailed_history` and
`import_from_csv` clamp, but `add_manual_profile` inserts its input
unvalidated). -/
theorem consumption_range_invariant :
    ∀ (ops : List StoreOp) (st : Store),
      storeOk st → (∀ op ∈ ops, opOk op) → storeOk (applyOps st ops) := by
  intro ops
  induction ops with
  | nil => intro st h _; exact h
  | cons op ops ih =>
    intro st hst hops
    have hop : opOk op := hops op (by simp)
    have htail : ∀ o ∈ ops, opOk o := fun o ho => hops o (by simp [ho])
    refine ih (applyOp st op) ?_ htail
    cases op with
    | record ld now ts k => exact storeOk_record hst ld now ts k
    | manualProfile ld now p => exact storeOk_manual hst ld now hop
    | detailedHistory ld now d => exact storeOk_detailed hst ld now d
    | csvImport ld now d => exact storeOk_detailed hst ld now d

/-- Witness for C7: the invariant applied to a concrete operation sequence
exercising every path, with both hypotheses discharged. -/
theorem consumption_range_invariant_witness :
    storeOk (applyOps []
      [StoreOp.record 28 100000 60005 1,
       StoreOp.manualProfile 1 100000 fun _ => some 1,
       StoreOp.detailedHistory 28 100000 [⟨some 99000, List.replicate 24 2⟩],
       StoreOp.csvImport 28 100000 [⟨some 99000, List.replicate 24 3⟩]]) := by
  refine consumption_range_invariant _ [] storeOk_nil ?_
  intro op hop
  simp only [List.mem_cons, List.not_mem_nil, or_false] at hop
  rcases hop with rfl | rfl | rfl | rfl
  · trivial
  · intro h q hq
    injection hq with hq
    subst hq
    norm_num
  · trivial
  · trivial


/-! ### C6 — exact-timestamp keying of `record_consumption` -/

theorem cleanup_idem (c : Int) (st : Store) :
    cleanup_old_data c (cleanup_old_data c st) = cleanup_old_data c st := by
  unfold cleanup_old_data
  rw [List.filter_filter]
  simp

theorem insertOrReplace_same_key (st : Store) (s1 s2 : Sample)
    (h : s1.timestamp = s2.timestamp) :
    insertOrReplace (insertOrReplace st s1) s2 = insertOrReplace st s2 := by
  induction st with
  | nil => simp only [insertOrReplace, if_pos h]
  | cons x xs ih =>
    by_cases hx : x.timestamp = s1.timestamp
    · have hx2 : x.timestamp = s2.timestamp := hx.trans h
      simp only [insertOrReplace, if_pos hx, if_pos hx2, if_pos h]
    · have hx2 : ¬ x.timestamp = s2.timestamp := fun hh => hx (hh.trans h.symm)
      simp only [insertOrReplace, if_neg hx, if_neg hx2]
      rw [ih]

theorem cleanup_insertOrReplace_comm {c : Int} {s : Sample}
    (hc : c ≤ s.timestamp) (st : Store) :
    cleanup_old_data c (insertOrReplace st s) =
      insertOrReplace (cleanup_old_data c st) s := by
  induction st with
  | nil =>
    simp [cleanup_old_data, insertOrReplace, hc]
  | cons x xs ih =>
    by_cases hx : x.timestamp = s.timestamp
    · have hcx : c ≤ x.timestamp := by rw [hx]; exact hc
      simp [cleanup_old_data, insertOrReplace, if_pos hx, hc, hcx]
    · by_cases hpx : c ≤ x.timestamp
      · simp only [insertOrReplace, if_neg hx]
        simp only [cleanup_old_data, List.filter_cons] at ih ⊢
        simp only [decide_eq_true_eq, if_pos hpx, hpx, decide_True]
        simp only [ih]
        simp [insertOrReplace, if_neg hx]
      · simp only [insertOrReplace, if_neg hx]
        simp only [cleanup_old_data, List.filter_cons] at ih ⊢
        simp only [decide_eq_true_eq, if_neg hpx]
        exact ih

theorem cleanup_insertOrReplace_absorb {c : Int} {s : Sample}
    (hc : s.timestamp < c) (st : Store) :
    cleanup_old_data c (insertOrReplace st s) = cleanup_old_data c st := by
  have hns : ¬ c ≤ s.timestamp := not_le.mpr hc
  induction st with
  | nil =>
    simp [cleanup_old_data, insertOrReplace, hns]
  | cons x xs ih =>
    by_cases hx : x.timestamp = s.timestamp
    · have hnx : ¬ c ≤ x.timestamp := by rw [hx]; exact hns
      simp [cleanup_old_data, insertOrReplace, if_pos hx, hns, hnx]
    · simp only [insertOrReplace, if_neg hx]
      simp only [cleanup_old_data, List.filter_cons] at ih ⊢
      by_cases hpx : c ≤ x.timestamp
      · simp only [decide_eq_true_eq, if_pos hpx, hpx, decide_True]
        simp only [ih]
      · simp only [decide_eq_true_eq, if_neg hpx]
        exact ih

/-- **C6 (counterexample).**  Two `record_consumption` calls in the same
clock hour (minutes 05 and 37 of hour 16) create two distinct rows: the key
is the exact timestamp, not `roundToHour(ts)`, so same-hour calls do not
overwrite each other. -/
theorem record_same_hour_two_records :
    (record_consumption 28 100000
        (record_consumption 28 100000 [] 60005 1) 60037 2).length = 2 ∧
    hourOfTime 60005 = hourOfTime 60037 ∧ (60005 : Int) ≠ 60037 := by
  refine ⟨by decide, by decide, by decide⟩

/-- **C6 (amended).**  `record_consumption(ts, kWh)` with `0 ≤ kWh ≤ 50`
stores the sample keyed at the *exact* timestamp `ts` (hour column
`ts.hour`), so two calls overwrite the same record iff their full timestamps
are equal — re-recording the same exact timestamp is a no-op up to
overwrite; after every successful record it purges samples older than
`learningDays`; a call with `kWh < 0` or `kWh > 50` leaves the store
completely unchanged. -/
theorem record_consumption_exact_key :
    (∀ (ld now : Int) (st : Store) (ts : Int) (k : ℚ),
      k < 0 → record_consumption ld now st ts k = st) ∧
    (∀ (ld now : Int) (st : Store) (ts : Int) (k : ℚ),
      k > 50 → record_consumption ld now st ts k = st) ∧
    (∀ (ld now : Int) (st : Store) (ts : Int) (k : ℚ),
      0 ≤ k → k ≤ 50 →
      record_consumption ld now st ts k =
        cleanup_old_data (now - ld * 1440)
          (insertOrReplace st ⟨ts, hourOfTime ts, k, false⟩)) ∧
    (∀ (ld now : Int) (st : Store) (ts : Int) (k kx : ℚ),
      0 ≤ k → k ≤ 50 → 0 ≤ kx → kx ≤ 50 →
      record_consumption ld now (record_consumption ld now st ts k) ts kx =
        record_consumption ld now st ts kx) := by
  have heq : ∀ (ld now : Int) (st : Store) (ts : Int) (k : ℚ),
      0 ≤ k → k ≤ 50 →
      record_consumption ld now st ts k =
        cleanup_old_data (now - ld * 1440)
          (insertOrReplace st ⟨ts, hourOfTime ts, k, false⟩) := by
    intro ld now st ts k h0 h50
    unfold record_consumption
    rw [if_neg (by linarith), if_neg (by linarith)]
  refine ⟨?_, ?_, heq, ?_⟩
  · intro ld now st ts k h
    unfold record_consumption
    rw [if_pos h]
  · intro ld now st ts k h
    unfold record_consumption
    rw [if_neg (by linarith), if_pos h]
  · intro ld now st ts k kx h0 h50 hx0 hx50
    rw [heq ld now st ts k h0 h50, heq ld now _ ts kx hx0 hx50,
      heq ld now st ts kx hx0 hx50]
    set c := now - ld * 1440 with hc
    set s1 : Sample := ⟨ts, hourOfTime ts, k, false⟩ with hs1
    set s2 : Sample := ⟨ts, hourOfTime ts, kx, false⟩ with hs2
    have hkey : s1.timestamp = s2.timestamp := rfl
    rcases le_or_lt c ts with hle | hlt
    · have hle1 : c ≤ s1.timestamp := hle
      have hle2 : c ≤ s2.timestamp := hle
      rw [cleanup_insertOrReplace_comm hle1 st,
        insertOrReplace_same_key _ s1 s2 hkey,
        cleanup_insertOrReplace_comm hle2 (cleanup_old_data c st),
        cleanup_idem, ← cleanup_insertOrReplace_comm hle2 st]
    · have hlt1 : s1.timestamp < c := hlt
      have hlt2 : s2.timestamp < c := hlt
      rw [cleanup_insertOrReplace_absorb hlt1 st,
        cleanup_insertOrReplace_absorb hlt2 (cleanup_old_data c st),
        cleanup_idem, cleanup_insertOrReplace_absorb hlt2 st]

/-- Witness for C6: each conjunct of `record_consumption_exact_key` applied
at a concrete input with its hypotheses discharged. -/
theorem record_consumption_exact_key_witness :
    record_consumption 28 100000 [] 60005 (-1) = [] ∧
    record_consumption 28 100000 [] 60005 51 = [] ∧
    record_consumption 28 100000 [] 60005 1 =
      cleanup_old_data (100000 - 28 * 1440)
        (insertOrReplace [] ⟨60005, hourOfTime 60005, 1, false⟩) ∧
    record_consumption 28 100000 (record_consumption 28 100000 [] 60005 1)
        60005 2 = record_consumption 28 100000 [] 60005 2 :=
  ⟨record_consumption_exact_key.1 28 100000 [] 60005 (-1) (by norm_num),
   record_consumption_exact_key.2.1 28 100000 [] 60005 51 (by norm_num),
   record_consumption_exact_key.2.2.1 28 100000 [] 60005 1 (by norm_num)
     (by norm_num),
   record_consumption_exact_key.2.2.2 28 100000 [] 60005 1 2 (by norm_num)
     (by norm_num) (by norm_num) (by norm_num)⟩

/-! ### C8 — `add_manual_profile` followed by `get_average_consumption` -/

/-- Manual profile storing 0 kWh at hour 0 and 1 kWh elsewhere. -/
def c8Profile : Nat → Option ℚ := fun h => if h = 0 then some 0 else some 1

/-- The store produced by seeding `c8Profile` with `learning_days = 1` at
`now = 100000` (day floor 97920). -/
def c8Store : Store :=
  (List.range 24).map fun h =>
    ⟨97920 + (h : Int) * 60, (h : Int), if h = 0 then 0 else 1, true⟩

theorem c8_store_eval : add_manual_profile 1 100000 [] c8Profile = c8Store := by
  decide

theorem c8_rows :
    c8Store.filter (fun s => decide (s.hour = 0)) = [⟨97920, 0, 0, true⟩] := by
  decide

/-- `get_average_consumption` on a store whose hour-`h` rows are a single
sample: the fallback is returned whenever the stored value is 0. -/
theorem get_average_single (fb : ℚ) (s : Sample) (st : Store) (h : Int)
    (hrows : st.filter (fun x => decide (x.hour = h)) = [s]) :
    get_average_consumption fb st h = if s.kwh = 0 then fb else s.kwh := by
  unfold get_average_consumption
  rw [hrows]
  simp

/-- **C8 (evaluation at the failing input).**  Starting from the empty store,
`add_manual_profile` with `p[0] = 0` followed by `get_average_consumption 0`
returns the fallback (1), not the stored average 0: the guard
`if result and result[0]` treats an average of `0.0` like `NULL`, so the
fallback is returned in place of a stored average of 0 even though an hour-0
sample exists. -/
theorem average_of_zero_returns_fallback_bug :
    get_average_consumption 1 (add_manual_profile 1 100000 [] c8Profile) 0
        = 1 ∧
    c8Profile 0 = some 0 ∧
    (add_manual_profile 1 100000 [] c8Profile).filter
        (fun x => decide (x.hour = 0)) = [⟨97920, 0, 0, true⟩] := by
  have hrows : (add_manual_profile 1 100000 [] c8Profile).filter
      (fun x => decide (x.hour = 0)) = [⟨97920, 0, 0, true⟩] := by
    rw [c8_store_eval]
    exact c8_rows
  refine ⟨?_, rfl, hrows⟩
  rw [get_average_single 1 ⟨97920, 0, 0, true⟩ _ 0 hrows]
  norm_num


/-! ## Charging transitions (app.py `api_control` lines 430-456 and
    `controller_loop` lines 1098-1113)

The commands a transition issues against the inverter, in program order. -/

/-- An outbound inverter command: `kostal_api.set_external_control(b)` or
`modbus_client.write_battery_power(w)`. -/
inductive InverterCmd
  | setExternalControl (enabled : Bool)
  | writeBatteryPower (watts : Int)
deriving DecidableEq

/-- `start_charging` (api_control): `set_external_control(True)` then
`write_battery_power(-abs(int(power)))`. -/
def start_charging_cmds (power : Int) : List InverterCmd :=
  [.setExternalControl true, .writeBatteryPower (-(power.natAbs : Int))]

/-- `stop_charging` (api_control): `write_battery_power(0)` then
`set_external_control(False)`. -/
def stop_charging_cmds : List InverterCmd :=
  [.writeBatteryPower 0, .setExternalControl false]

/-- Auto-charging entry (controller_loop): `set_external_control(True)` then
`write_battery_power(-config['max_charge_power'])`. -/
def auto_start_cmds (maxChargePower : Int) : List InverterCmd :=
  [.setExternalControl true, .writeBatteryPower (-maxChargePower)]

/-- Auto-charging exit (controller_loop): `write_battery_power(0)` then
`set_external_control(False)`. -/
def auto_stop_cmds : List InverterCmd :=
  [.writeBatteryPower 0, .setExternalControl false]

/-- The inverter-side pair observed across tick boundaries. -/
structure InverterState where
  externalControl : Bool
  setpoint : Int
deriving DecidableEq

/-- Effect of one command on the observed pair. -/
def applyCmd (st : InverterState) : InverterCmd → InverterState
  | .setExternalControl b => { st with externalControl := b }
  | .writeBatteryPower w => { st with setpoint := w }

/-- Effect of a command list. -/
def applyCmds (st : InverterState) (cs : List InverterCmd) : InverterState :=
  cs.foldl applyCmd st

/-- The four charging-mode transitions named by the claim. -/
inductive ControlTransition
  | manualStart (power : Int)
  | manualStop
  | autoStart (maxChargePower : Int)
  | autoStop

/-- The command sequence each transition issues. -/
def transitionCmds : ControlTransition → List InverterCmd
  | .manualStart p => start_charging_cmds p
  | .manualStop => stop_charging_cmds
  | .autoStart m => auto_start_cmds m
  | .autoStop => auto_stop_cmds

/-- State after running a sequence of transitions from `st`; the state after
each transition is a tick-boundary observation. -/
def runTransitions (st : InverterState) (ts : List ControlTransition) :
    InverterState :=
  ts.foldl (fun s t => applyCmds s (transitionCmds t)) st

/-- Initial inverter state: internal control, idle setpoint. -/
def initialInverterState : InverterState := ⟨false, 0⟩

/-- The claim's tick-boundary invariant: the pair (external-control enabled,
nonzero setpoint) is never observed with only one side set. -/
def pairConsistent (st : InverterState) : Prop :=
  st.externalControl = true ↔ st.setpoint ≠ 0

/-- Enable-before-setpoint ordering inside a command sequence: any nonzero
`write_battery_power` is preceded by `set_external_control(True)`. -/
def enableBeforeNonzeroWrite (cmds : List InverterCmd) : Prop :=
  ∀ i : Fin cmds.length,
    (∃ w, w ≠ 0 ∧ cmds.get i = .writeBatteryPower w) →
    ∃ j : Fin cmds.length, (j : Nat) < (i : Nat) ∧
      cmds.get j = .setExternalControl true

/-- Zero-before-disable ordering inside a command sequence: any
`set_external_control(False)` is preceded by `write_battery_power(0)`. -/
def zeroWriteBeforeDisable (cmds : List InverterCmd) : Prop :=
  ∀ i : Fin cmds.length,
    cmds.get i = .setExternalControl false →
    ∃ j : Fin cmds.length, (j : Nat) < (i : Nat) ∧
      cmds.get j = .writeBatteryPower 0

/-- Side condition under which the boundary invariant holds: entering
transitions must command a nonzero power. -/
def transitionPowerNonzero : ControlTransition → Prop
  | .manualStart p => p ≠ 0
  | .autoStart m => m ≠ 0
  | _ => True

instance (t : ControlTransition) : Decidable (transitionPowerNonzero t) :=
  match t with
  | .manualStart p => inferInstanceAs (Decidable (p ≠ 0))
  | .manualStop => inferInstanceAs (Decidable True)
  | .autoStart m => inferInstanceAs (Decidable (m ≠ 0))
  | .autoStop => inferInstanceAs (Decidable True)

/-- **C5 (counterexample).**  The operator may POST `start_charging` with
`power = 0`: the handler still issues `set_external_control(True)` and then
writes the setpoint `-abs(int(0)) = 0`, so at the next tick boundary
external control is enabled with a zero setpoint — the pair is observed with
only one side set, refuting the claimed invariant. -/
theorem pair_invariant_counterexample :
    (runTransitions initialInverterState [.manualStart 0]).externalControl
        = true ∧
    (runTransitions initialInverterState [.manualStart 0]).setpoint = 0 := by
  exact ⟨rfl, rfl⟩

/-- **C5 (amended).**  On every transition into a charging mode the
external-control enable precedes the (nonzero) setpoint write, and on every
transition out the zero write precedes the disable; consequently, provided
every `start_charging` request and `max_charge_power` are nonzero, the pair
(external-control enabled, nonzero setpoint) is never observed with only one
side set at any tick boundary. -/
theorem charging_transition_ordering :
    (∀ p, enableBeforeNonzeroWrite (start_charging_cmds p)) ∧
    (∀ m, enableBeforeNonzeroWrite (auto_start_cmds m)) ∧
    zeroWriteBeforeDisable stop_charging_cmds ∧
    zeroWriteBeforeDisable auto_stop_cmds ∧
    (∀ ts : List ControlTransition,
      (∀ t ∈ ts, transitionPowerNonzero t) →
      pairConsistent (runTransitions initialInverterState ts)) := by
  have horder2 : ∀ (a : InverterCmd) (w : Int),
      ∀ i : Fin ([a, InverterCmd.writeBatteryPower w].length),
      (∃ v, v ≠ 0 ∧ [a, InverterCmd.writeBatteryPower w].get i =
          InverterCmd.writeBatteryPower v) →
      a = .setExternalControl true →
      ∃ j : Fin ([a, InverterCmd.writeBatteryPower w].length),
        (j : Nat) < (i : Nat) ∧
        [a, InverterCmd.writeBatteryPower w].get j =
          InverterCmd.setExternalControl true := by
    rintro a w ⟨i, hi⟩ ⟨v, hv, hget⟩ ha
    match i, hi with
    | 0, _ =>
      subst ha
      exact absurd hget (by simp)
    | 1, _ =>
      subst ha
      exact ⟨⟨0, by omega⟩, Nat.zero_lt_one, rfl⟩
  have hstep : ∀ (st : InverterState) (t : ControlTransition),
      transitionPowerNonzero t →
      pairConsistent (applyCmds st (transitionCmds t)) := by
    intro st t ht
    cases t with
    | manualStart p =>
      have hp : p ≠ 0 := ht
      constructor
      · intro _
        show -(p.natAbs : Int) ≠ 0
        omega
      · intro _
        rfl
    | manualStop =>
      constructor
      · intro h
        exact absurd h Bool.false_ne_true
      · intro h
        exact absurd rfl h
    | autoStart m =>
      have hm : m ≠ 0 := ht
      constructor
      · intro _
        show -m ≠ 0
        omega
      · intro _
        rfl
    | autoStop =>
      constructor
      · intro h
        exact absurd h Bool.false_ne_true
      · intro h
        exact absurd rfl h
  have hrun : ∀ (ts : List ControlTransition) (st : InverterState),
      pairConsistent st → (∀ t ∈ ts, transitionPowerNonzero t) →
      pairConsistent (runTransitions st ts) := by
    intro ts
    induction ts with
    | nil =>
      intro st h _
      exact h
    | cons t ts ih =>
      intro st h hts
      have ht : transitionPowerNonzero t := hts t (by simp)
      have htail : ∀ x ∈ ts, transitionPowerNonzero x := fun x hx =>
        hts x (by simp [hx])
      exact ih (applyCmds st (transitionCmds t)) (hstep st t ht) htail
  refine ⟨?_, ?_, ?_, ?_, ?_⟩
  · intro p i hi
    exact horder2 _ _ i hi rfl
  · intro m i hi
    exact horder2 _ _ i hi rfl
  · rintro ⟨i, hi⟩ hget
    match i, hi with
    | 0, _ => exact InverterCmd.noConfusion hget
    | 1, _ => exact ⟨⟨0, by omega⟩, Nat.zero_lt_one, rfl⟩
  · rintro ⟨i, hi⟩ hget
    match i, hi with
    | 0, _ => exact InverterCmd.noConfusion hget
    | 1, _ => exact ⟨⟨0, by omega⟩, Nat.zero_lt_one, rfl⟩
  · intro ts hts
    refine hrun ts initialInverterState ?_ hts
    constructor
    · intro h
      exact absurd h Bool.false_ne_true
    · intro h
      exact absurd rfl h

/-- Witness for C5: the ordering and the invariant applied to a concrete
manual-then-auto charge cycle at 3900 W, with the nonzero-power hypothesis
discharged. -/
theorem charging_transition_ordering_witness :
    (∀ t ∈ [ControlTransition.manualStart 3900, ControlTransition.manualStop,
        ControlTransition.autoStart 3900, ControlTransition.autoStop],
      transitionPowerNonzero t) ∧
    pairConsistent (runTransitions initialInverterState
      [ControlTransition.manualStart 3900, ControlTransition.manualStop,
       ControlTransition.autoStart 3900, ControlTransition.autoStop]) :=
  ⟨by decide, charging_transition_ordering.2.2.2.2 _ (by decide)⟩



/-! ## Kostal auth handshake (src/battery_manager/core/kostal_api.py,
    `login`, lines 62-207)

Byte strings are `List Nat`; the cryptographic primitives are abstract
function parameters, so the theorems hold for any implementation of
SHA-256 / HMAC / PBKDF2 / base64 / UTF-8. -/

/-- Byte strings. -/
abbrev Bytes := List Nat

/-- The primitives the handshake composes.  `pbkdf2HmacSha256 password salt
rounds` stands for `hashlib.pbkdf2_hmac('sha256', password, salt, rounds)`,
whose default output length is the SHA-256 digest size, 32 bytes. -/
structure CryptoPrims where
  sha256 : Bytes → Bytes
  hmacSha256 : Bytes → Bytes → Bytes
  pbkdf2HmacSha256 : String → Bytes → Nat → Bytes
  utf8 : String → Bytes
  b64encode : Bytes → String
  b64decode : String → Bytes

/-- `bytes(a ^ b for (a, b) in zip(s, g))`. -/
def xorBytes (a b : Bytes) : Bytes := List.zipWith Nat.xor a b

/-- Inputs of step 2 of the handshake: the installer password, the base64
client nonce `u`, and the server's `nonce`/`salt`/`rounds` from
`/auth/start`. -/
structure LoginInputs where
  installerPassword : String
  clientNonce : String
  serverNonce : String
  salt : String
  rounds : Nat

/-- The auth message `d = f"n=user,r={u},r={i},s={a},i={str(o)},c=biws,r={i}"`
(kostal_api.py line 107); the fixed username is `"user"` and the server
nonce appears twice. -/
def auth_message (inp : LoginInputs) : String :=
  "n=user,r=" ++ inp.clientNonce ++ ",r=" ++ inp.serverNonce ++
    ",s=" ++ inp.salt ++ ",i=" ++ toString inp.rounds ++
    ",c=biws,r=" ++ inp.serverNonce

/-- All values derived by `login` in steps 2 and 4 (lines 102-135), named
after the spec's vocabulary; the single-letter Python locals are noted on
each field. -/
structure LoginDerivation where
  key : Bytes
  clientKey : Bytes
  serverKey : Bytes
  storedKey : Bytes
  authMsg : String
  clientSignature : Bytes
  serverSignature : Bytes
  proof : String
  protocolKey : Bytes

/-- Transcription of the derivation in `login`:
`r = pbkdf2(installer_password, b64decode(salt), rounds)`,
`s = HMAC(r, "Client Key")`, `c = HMAC(r, "Server Key")`,
`_ = SHA256(s)`, `d` the auth message, `g = HMAC(_, d)`, `p = HMAC(c, d)`,
`f = s XOR g`, `proof = b64encode(f)`, and the session
`protocol_key = HMAC(_, "Session Key" || d || s)` built by incremental
`update` calls. -/
def login_derive (P : CryptoPrims) (inp : LoginInputs) : LoginDerivation :=
  let bitSalt := P.b64decode inp.salt
  let r := P.pbkdf2HmacSha256 inp.installerPassword bitSalt inp.rounds
  let s := P.hmacSha256 r (P.utf8 "Client Key")
  let c := P.hmacSha256 r (P.utf8 "Server Key")
  let stored := P.sha256 s
  let d := auth_message inp
  let g := P.hmacSha256 stored (P.utf8 d)
  let p := P.hmacSha256 c (P.utf8 d)
  let f := xorBytes s g
  let protoKey := P.hmacSha256 stored (P.utf8 "Session Key" ++ P.utf8 d ++ s)
  { key := r
    clientKey := s
    serverKey := c
    storedKey := stored
    authMsg := d
    clientSignature := g
    serverSignature := p
    proof := P.b64encode f
    protocolKey := protoKey }

/-- **C4.**  For every choice of primitives and inputs, the client composes
the auth message as the literal string
`n=user,r=<clientNonce>,r=<serverNonce>,s=<salt>,i=<rounds>,c=biws,r=<serverNonce>`
with the server nonce appearing twice, derives
`key = PBKDF2-HMAC-SHA256(installerPassword, base64Decode(salt), rounds)`
(32-byte default output), `clientKey = HMAC-SHA256(key, "Client Key")`,
`storedKey = SHA-256(clientKey)`, sends
`proof = base64(clientKey XOR HMAC-SHA256(storedKey, authMessage))`, and
derives `protocolKey = HMAC-SHA256(storedKey,
"Session Key" || authMessage || clientKey)`. -/
theorem login_handshake_composition (P : CryptoPrims) (inp : LoginInputs) :
    (login_derive P inp).authMsg =
      "n=user,r=" ++ inp.clientNonce ++ ",r=" ++ inp.serverNonce ++
        ",s=" ++ inp.salt ++ ",i=" ++ toString inp.rounds ++
        ",c=biws,r=" ++ inp.serverNonce ∧
    (login_derive P inp).key =
      P.pbkdf2HmacSha256 inp.installerPassword (P.b64decode inp.salt)
        inp.rounds ∧
    (login_derive P inp).clientKey =
      P.hmacSha256 (login_derive P inp).key (P.utf8 "Client Key") ∧
    (login_derive P inp).serverKey =
      P.hmacSha256 (login_derive P inp).key (P.utf8 "Server Key") ∧
    (login_derive P inp).storedKey = P.sha256 (login_derive P inp).clientKey ∧
    (login_derive P inp).proof =
      P.b64encode (xorBytes (login_derive P inp).clientKey
        (P.hmacSha256 (login_derive P inp).storedKey
          (P.utf8 (login_derive P inp).authMsg))) ∧
    (login_derive P inp).protocolKey =
      P.hmacSha256 (login_derive P inp).storedKey
        (P.utf8 "Session Key" ++ P.utf8 (login_derive P inp).authMsg ++
          (login_derive P inp).clientKey) :=
  ⟨rfl, rfl, rfl, rfl, rfl, rfl, rfl⟩


end BatteryManager
